import Mathlib

/-!
Verification development for the nexus-console acquisition pipeline.

The definitions below are a shallow embedding of the Python sources:

* `src/src/console/spcm_control/acquisition_control.py` — the orchestrator
  (`AcquistionControl.run`, `AcquistionControl.post_processing`);
* `src/console/spcm_control/rx_device_2.py` — the receive card
  (`RxCard.setup_card`, `RxCard.start_operation`, `RxCard.stop_operation`,
  `RxCard._fifo_gated_ts`).

numpy arrays are modelled as Lean lists, complex samples as `ℂ`, machine
floats as `ℝ`.  Hardware and clock interactions are modelled as explicit
environments: the orchestrator's poll loop consumes a list of `PollStep`
observations (the value of `rx_card.rx_data` and of the elapsed time at each
poll tick), and the receive loop consumes a stream of `TsObs` timestamp-buffer
observations together with the stream of values the cancellation flag shows at
the top of each iteration.  Functions with observable effects additionally
return the list of emitted events (`Ev`, `RxEv`).
-/

namespace NexusConsole

/-- Python slice semantics `x[a:b]` for a list (numpy 1-D basic slicing):
a negative index counts from the end and the effective range is clipped to
the list. -/
def npSlice {α : Type} (x : List α) (a b : ℤ) : List α :=
  let n := x.length
  let s : ℕ := if a < 0 then n - (-a).toNat else min a.toNat n
  let e : ℕ := if b < 0 then n - (-b).toNat else min b.toNat n
  (x.drop s).take (e - s)

/-- The readout start index `ro_start = int(_sig.size / 2 - parameter.adc_samples / 2)`
of `AcquistionControl.post_processing` (acquisition_control.py line 225).
Python's `int()` truncates toward zero, so the value is `(n - adc) / 2` as a
natural division when `adc ≤ n` and `-((adc - n) / 2)` otherwise. -/
def ro_start (n adc : ℕ) : ℤ :=
  if adc ≤ n then ((n - adc) / 2 : ℕ) else -(((adc - n) / 2 : ℕ) : ℤ)

/-- The truncation `_sig[ro_start : ro_start + parameter.adc_samples]` of
`AcquistionControl.post_processing` (acquisition_control.py lines 225-228). -/
def adc_truncate {α : Type} (x : List α) (adc : ℕ) : List α :=
  npSlice x (ro_start x.length adc) (ro_start x.length adc + adc)

/-- Modelled from the spec: `apply_ddc` (module `console.spcm_control.ddc`,
whose source file is not part of the sources; only its caller
`AcquistionControl.post_processing` is).  Per spec section 4.3 it mixes the
real input with a complex exponential at the carrier frequency `f_0`, applies a
low-pass window of length `kernel_size = 2 × downsamplingFactor` and decimates
by `downsamplingFactor = kernel_size / 2`; the output length is
`floor(inputLength / downsamplingFactor)`. -/
noncomputable def apply_ddc (x : List ℝ) (kernel_size : ℕ) (f_0 f_spcm : ℝ) : List ℂ :=
  let decim := kernel_size / 2
  let mixed : ℕ → ℂ := fun i =>
    ((x.getD i 0 : ℝ) : ℂ) * Complex.exp (((-2 * Real.pi * f_0 * i / f_spcm : ℝ) : ℂ) * Complex.I)
  (List.range (x.length / decim)).map fun j =>
    (((kernel_size : ℝ) : ℂ))⁻¹ * ((List.range kernel_size).map fun m => mixed (j * decim + m)).sum

/-- Elementwise phase correction `sig * np.exp(-1j * np.angle(ref))`
(acquisition_control.py line 235). -/
noncomputable def phase_correct (z w : ℂ) : ℂ :=
  z * Complex.exp (-Complex.I * ((Complex.arg w : ℝ) : ℂ))

/-- The fields of `AcquisitionParameter` used by the acquisition control. -/
structure AcquisitionParameter where
  larmor_frequency : ℝ
  downsampling_rate : ℕ
  adc_samples : ℕ

/-- Receive-card state (`RxCard` of rx_device_2.py): the configured sample
rate in MHz, the per-channel scaling factors read by the orchestrator, the
worker thread (`None` or running) and the `emergency_stop` flag. -/
structure RxCard where
  sample_rate : ℕ
  rx_scaling : List ℝ
  worker : Option Unit
  emergency_stop : Bool

/-- Modelled from the spec: the transmit card (`TxCard`, whose source file is
not part of the sources) is a thin peer with start/stop operations; only its
running/stopped status is relevant here. -/
structure TxCard where
  running : Bool

/-- State of an `AcquistionControl` instance (class name spelled as in the
source): setup flag, the two cards, and the accumulated result arrays
`_raw`/`_sig`/`_ref` (indexed `[average][phase encoding][readout]`, `none`
before the first accumulation) plus the dwell time. -/
structure AcquistionControl where
  is_setup : Bool
  tx_card : TxCard
  rx_card : RxCard
  raw : Option (List (List (List ℂ)))
  sig : Option (List (List (List ℂ)))
  ref : Option (List (List (List ℂ)))
  dwell : Option ℝ

/-- Rx sampling rate for the DDC: `self.f_spcm = self.rx_card.sample_rate * 1e6`
(acquisition_control.py line 51). -/
def AcquistionControl.f_spcm (c : AcquistionControl) : ℝ :=
  (c.rx_card.sample_rate : ℝ) * 1000000

/-- The per-gate processing of channel `ch` in `AcquistionControl.post_processing`
(acquisition_control.py lines 217-228): scale by `rx_scaling[ch]`, apply the
digital downconversion with `kernel_size = 2 * downsampling_rate`, and
truncate to `adc_samples` samples around the centre. -/
noncomputable def AcquistionControl.gateRow (c : AcquistionControl)
    (p : AcquisitionParameter) (ch : ℕ) (gate : List (List ℝ)) : List ℂ :=
  adc_truncate
    (apply_ddc ((gate.getD ch []).map fun v => v * c.rx_card.rx_scaling.getD ch 0)
      (2 * p.downsampling_rate) p.larmor_frequency c.f_spcm)
    p.adc_samples

/-- The stacked signal rows (`sig` of acquisition_control.py line 231). -/
noncomputable def AcquistionControl.sigRows (c : AcquistionControl)
    (data : List (List (List ℝ))) (p : AcquisitionParameter) : List (List ℂ) :=
  data.map fun gate => c.gateRow p 0 gate

/-- The stacked reference rows (`ref` of acquisition_control.py line 232). -/
noncomputable def AcquistionControl.refRows (c : AcquistionControl)
    (data : List (List (List ℝ))) (p : AcquisitionParameter) : List (List ℂ) :=
  data.map fun gate => c.gateRow p 1 gate

/-- The phase-corrected rows `raw = sig * np.exp(-1j * np.angle(ref))`
(acquisition_control.py line 235). -/
noncomputable def AcquistionControl.rawRows (c : AcquistionControl)
    (data : List (List (List ℝ))) (p : AcquisitionParameter) : List (List ℂ) :=
  List.zipWith (fun s r => List.zipWith phase_correct s r)
    (c.sigRows data p) (c.refRows data p)

/-- `AcquistionControl.post_processing` (acquisition_control.py lines 194-241):
per gate, scale channel 0 (signal) and channel 1 (reference) by the rx scaling
factors, apply the digital downconversion, truncate both to `adc_samples`
around the centre; stack the per-gate rows, phase-correct
`raw = sig * exp(-1j*angle(ref))`, and append the three 2-D arrays as a new
leading average slice (first call initialises the arrays, later calls
concatenate along the average axis). -/
noncomputable def AcquistionControl.post_processing (c : AcquistionControl)
    (data : List (List (List ℝ))) (p : AcquisitionParameter) : AcquistionControl :=
  { c with
    sig := some (match c.sig with
      | none => [c.sigRows data p]
      | some a => a ++ [c.sigRows data p])
    ref := some (match c.ref with
      | none => [c.refRows data p]
      | some a => a ++ [c.refRows data p])
    raw := some (match c.raw with
      | none => [c.rawRows data p]
      | some a => a ++ [c.rawRows data p]) }

/-- The list of average slices held by an optional result array (`None`
holds no slice). -/
def slices (o : Option (List (List (List ℂ)))) : List (List (List ℂ)) :=
  o.getD []

/-- One tick of the orchestrator's poll loop, as observed from the
environment: the value of `self.rx_card.rx_data` at the `while` guard, its
value after the 10 ms sleep (the value all reads of the loop body see), and
the elapsed time `time.time() - time_start` at the timeout check. -/
structure PollStep where
  atGuard : List (List (List ℝ))
  afterSleep : List (List (List ℝ))
  elapsed : ℝ

/-- Observable events of `AcquistionControl.run`. -/
inductive Ev where
  | startRx
  | startTx
  | stopTx
  | stopRx
  | logTimeout (observed expected : ℕ)
  deriving DecidableEq

/-- How one execution of the orchestrator's poll loop ended. -/
inductive LoopExit where
  | processedAll
  | timedOut (observed : ℕ)
  | guardExit
  | stepsExhausted
  deriving DecidableEq

/-- The poll loop of `AcquistionControl.run` (acquisition_control.py lines
170-186): while the guard sees fewer records than `adc_count`, sleep 10 ms;
if the count now reached `adc_count`, post-process all records and break; if
the elapsed time exceeded the timeout, log the partial acquisition and
post-process the records accumulated so far, if any, and break.  The
recursion consumes one `PollStep` per iteration; an empty list means the
environment provided no further ticks. -/
noncomputable def pollLoop (c : AcquistionControl) (p : AcquisitionParameter)
    (adc_count : ℕ) (timeout : ℝ) :
    List PollStep → AcquistionControl × List Ev × LoopExit
  | [] => (c, [], .stepsExhausted)
  | step :: rest =>
    if step.atGuard.length < adc_count then
      if adc_count ≤ step.afterSleep.length then
        (c.post_processing step.afterSleep p, [], .processedAll)
      else if timeout < step.elapsed then
        (if 0 < step.afterSleep.length then c.post_processing step.afterSleep p else c,
         [Ev.logTimeout step.afterSleep.length adc_count],
         .timedOut step.afterSleep.length)
      else
        pollLoop c p adc_count timeout rest
    else
      (c, [], .guardExit)

/-- `RxCard.start_operation` (rx_device_2.py lines 113-121): clear the
emergency stop flag and start the worker thread running `_fifo_gated_ts`. -/
def RxCard.start_operation (c : RxCard) : RxCard :=
  { c with emergency_stop := false, worker := some () }

/-- Observable events of the receive card. -/
inductive RxEv where
  | setEmergencyFlag
  | joinWorker
  | stopCommand (sampleDMA timestampDMA : Bool)
  | printNoActive
  | waitDMA
  | printTimestamps (t0 t1 : ℤ)
  | advanceTsCursor (n : ℕ)
  | emitGateRecord
  deriving DecidableEq

/-- `RxCard.stop_operation` (rx_device_2.py lines 123-138): if a worker
thread exists, set the emergency stop flag, join the worker, then issue the
single hardware command `M2CMD_CARD_STOP | M2CMD_DATA_STOPDMA |
M2CMD_EXTRA_STOPDMA` (stopping the card and draining both the sample and the
timestamp DMA channel) and clear the worker; otherwise only print that no
active process was found. -/
def RxCard.stop_operation (c : RxCard) : RxCard × List RxEv :=
  match c.worker with
  | some _ =>
    ({ c with emergency_stop := true, worker := none },
     [RxEv.setEmergencyFlag, RxEv.joinWorker, RxEv.stopCommand true true])
  | none => (c, [RxEv.printNoActive])

/-- `MEGA(val)` of the spcm tools: scale a MHz figure to Hz. -/
def MEGA (val : ℕ) : ℕ := val * 1000000

/-- The sample-rate mismatch condition raised by `RxCard.setup_card`. -/
inductive RxSetupError where
  | sampleRateWarning (actual : ℤ) (requested_MHz : ℕ)
  deriving DecidableEq

/-- The sample-rate negotiation step of `RxCard.setup_card` (rx_device_2.py
lines 76-86): the requested rate `MEGA(self.sample_rate)` is written to the
card, the actual rate is read back (modelled as the environment input
`negotiated`), and if the two differ a `Warning` is raised — aborting
`setup_card`; otherwise setup continues and the card state is unchanged by
this step.  The surrounding pure parameter writes of `setup_card` do not
change the modelled card state. -/
def RxCard.setup_card (c : RxCard) (negotiated : ℤ) : Except RxSetupError RxCard :=
  if negotiated ≠ (MEGA c.sample_rate : ℤ) then
    .error (.sampleRateWarning negotiated c.sample_rate)
  else
    .ok c

/-- One tick of the receive streaming loop, as observed from the
environment: the available timestamp bytes (`SPC_TS_AVAIL_USER_LEN`), the
timestamp read position (`SPC_TS_AVAIL_USER_POS`) and the contents of the
timestamp buffer. -/
structure TsObs where
  availBytes : ℕ
  pos : ℕ
  buf : ℕ → ℤ

/-- One iteration of the `while` loop of `RxCard._fifo_gated_ts`
(rx_device_2.py lines 191-213): wait for DMA data; query the available
timestamp bytes; if at least 32 bytes (one timestamp pair) are available,
read the two timestamps at the read position, print them, and advance the
timestamp read cursor by 32 bytes (`SPC_TS_AVAIL_CARD_LEN`). -/
def fifoIter (obs : TsObs) : List RxEv :=
  [RxEv.waitDMA] ++
    (if 32 ≤ obs.availBytes then
      [RxEv.printTimestamps (obs.buf (obs.pos + 16)) (obs.buf obs.pos),
       RxEv.advanceTsCursor 32]
    else [])

/-- The `while not self.emergency_stop.is_set()` loop of
`RxCard._fifo_gated_ts` (rx_device_2.py lines 191-213): `flagAt i` is the
value the emergency stop flag shows at the top of iteration `i`; the loop
runs the iterations up to the first one at which the flag is observed set,
then exits. -/
def fifo_gated_ts_loop (flagAt : ℕ → Bool) (obs : ℕ → TsObs)
    (h : ∃ i, flagAt i = true) : List RxEv :=
  (List.range (Nat.find h)).flatMap fun i => fifoIter (obs i)

/-- The errors `AcquistionControl.run` can raise before the averages loop. -/
inductive RunError where
  | runtimeError
  | fileNotFoundError
  deriving DecidableEq

/-- The unrolled sequence (external entity): total duration and expected
gate count. -/
structure UnrolledSequence where
  duration : ℝ
  adc_count : ℕ

/-- One iteration of the averages loop of `AcquistionControl.run`
(acquisition_control.py lines 159-189): start the rx card, wait the 0.5 s
stagger, start the tx card, run the poll loop, then stop the tx card and
stop the rx card. -/
noncomputable def AcquistionControl.runAverage (c : AcquistionControl)
    (p : AcquisitionParameter) (adc_count : ℕ) (timeout : ℝ)
    (steps : List PollStep) : AcquistionControl × List Ev :=
  let c1 := { c with rx_card := c.rx_card.start_operation }
  let c2 := { c1 with tx_card := { running := true } }
  let r := pollLoop c2 p adc_count timeout steps
  let c3 := r.1
  let c4 := { c3 with tx_card := { running := false } }
  let c5 := { c4 with rx_card := (c4.rx_card.stop_operation).1 }
  (c5, [Ev.startRx, Ev.startTx] ++ r.2.1 ++ [Ev.stopTx, Ev.stopRx])

/-- The `for k in range(num_averages)` loop of `AcquistionControl.run`:
one `List PollStep` environment entry per average. -/
noncomputable def AcquistionControl.runAverages (c : AcquistionControl)
    (p : AcquisitionParameter) (adc_count : ℕ) (timeout : ℝ) :
    List (List PollStep) → AcquistionControl × List Ev
  | [] => (c, [])
  | steps :: rest =>
    let r1 := c.runAverage p adc_count timeout steps
    let r2 := r1.1.runAverages p adc_count timeout rest
    (r2.1, r1.2 ++ r2.2)

/-- `AcquistionControl.run` (acquisition_control.py lines 121-192): raise
`RuntimeError` unless the cards are set up; raise `FileNotFoundError` unless
the sequence path ends in `.seq`; unroll the sequence (external — the
environment provides `sqnc`); set the timeout budget to 5 s plus the sequence
duration; reset `_raw`/`_ref`/`_sig` to `None`; run `num_averages` average
iterations (the environment provides one poll trace per average,
`num_averages = env.length`); finally set the dwell time to
`parameter.downsampling_rate / self.f_spcm`. -/
noncomputable def AcquistionControl.run (c : AcquistionControl)
    (sequence : List Char) (p : AcquisitionParameter) (sqnc : UnrolledSequence)
    (env : List (List PollStep)) : Except RunError (AcquistionControl × List Ev) :=
  if c.is_setup = false then
    .error .runtimeError
  else if ¬ (['.', 's', 'e', 'q'].isSuffixOf sequence) then
    .error .fileNotFoundError
  else
    let timeout : ℝ := 5 + sqnc.duration
    let c0 := { c with raw := none, ref := none, sig := none }
    let r := c0.runAverages p sqnc.adc_count timeout env
    .ok ({ r.1 with dwell := some ((p.downsampling_rate : ℝ) / c.f_spcm) }, r.2)

/-! ## Basic lemmas about the embedding -/

theorem post_processing_sig (c : AcquistionControl) (data : List (List (List ℝ)))
    (p : AcquisitionParameter) :
    slices (c.post_processing data p).sig = slices c.sig ++ [c.sigRows data p] := by
  cases h : c.sig <;> simp [AcquistionControl.post_processing, slices, h]

theorem post_processing_ref (c : AcquistionControl) (data : List (List (List ℝ)))
    (p : AcquisitionParameter) :
    slices (c.post_processing data p).ref = slices c.ref ++ [c.refRows data p] := by
  cases h : c.ref <;> simp [AcquistionControl.post_processing, slices, h]

theorem post_processing_raw (c : AcquistionControl) (data : List (List (List ℝ)))
    (p : AcquisitionParameter) :
    slices (c.post_processing data p).raw = slices c.raw ++ [c.rawRows data p] := by
  cases h : c.raw <;> simp [AcquistionControl.post_processing, slices, h]

theorem post_processing_rx_card (c : AcquistionControl) (data : List (List (List ℝ)))
    (p : AcquisitionParameter) :
    (c.post_processing data p).rx_card = c.rx_card := rfl

theorem post_processing_tx_card (c : AcquistionControl) (data : List (List (List ℝ)))
    (p : AcquisitionParameter) :
    (c.post_processing data p).tx_card = c.tx_card := rfl

theorem post_processing_dwell (c : AcquistionControl) (data : List (List (List ℝ)))
    (p : AcquisitionParameter) :
    (c.post_processing data p).dwell = c.dwell := rfl

theorem sigRows_length (c : AcquistionControl) (data : List (List (List ℝ)))
    (p : AcquisitionParameter) :
    (c.sigRows data p).length = data.length := by
  simp [AcquistionControl.sigRows]

theorem refRows_length (c : AcquistionControl) (data : List (List (List ℝ)))
    (p : AcquisitionParameter) :
    (c.refRows data p).length = data.length := by
  simp [AcquistionControl.refRows]

theorem rawRows_length (c : AcquistionControl) (data : List (List (List ℝ)))
    (p : AcquisitionParameter) :
    (c.rawRows data p).length = data.length := by
  simp [AcquistionControl.rawRows, List.length_zipWith, sigRows_length, refRows_length]

theorem apply_ddc_length (x : List ℝ) (kernel_size : ℕ) (f_0 f_spcm : ℝ) :
    (apply_ddc x kernel_size f_0 f_spcm).length = x.length / (kernel_size / 2) := by
  simp [apply_ddc]

theorem ro_start_of_le {n adc : ℕ} (h : adc ≤ n) :
    ro_start n adc = (((n - adc) / 2 : ℕ) : ℤ) := by
  simp [ro_start, h]

theorem npSlice_natCast {α : Type} (x : List α) (s e : ℕ) :
    npSlice x (s : ℤ) (e : ℤ) =
      (x.drop (min s x.length)).take (min e x.length - min s x.length) := by
  have hs : ¬((s : ℤ) < 0) := by omega
  have he : ¬((e : ℤ) < 0) := by omega
  simp [npSlice, hs, he]

theorem adc_truncate_eq_of_le {α : Type} {x : List α} {adc : ℕ} (h : adc ≤ x.length) :
    adc_truncate x adc = (x.drop ((x.length - adc) / 2)).take adc := by
  have h2 : (x.length - adc) / 2 ≤ x.length := le_trans (Nat.div_le_self _ _) (Nat.sub_le _ _)
  have h3 : (x.length - adc) / 2 + adc ≤ x.length := by omega
  rw [adc_truncate, ro_start, if_pos h, ← Nat.cast_add, npSlice_natCast,
    min_eq_left h2, min_eq_left h3, Nat.add_sub_cancel_left]

theorem adc_truncate_length_of_le {α : Type} {x : List α} {adc : ℕ} (h : adc ≤ x.length) :
    (adc_truncate x adc).length = adc := by
  rw [adc_truncate_eq_of_le h]
  simp only [List.length_take, List.length_drop]
  omega

theorem ro_start_eq_floor {n adc : ℕ} (h : adc ≤ n) :
    ro_start n adc = ⌊(n : ℚ) / 2 - (adc : ℚ) / 2⌋ := by
  have hc : (n : ℚ) / 2 - (adc : ℚ) / 2 = ((n - adc : ℕ) : ℚ) / 2 := by
    push_cast [h]
    ring
  rw [ro_start_of_le h, hc, show ((2 : ℚ)) = ((2 : ℕ) : ℚ) by norm_num,
    Rat.floor_natCast_div_natCast]
  norm_cast

theorem getD_zipWith {α β γ : Type} (f : α → β → γ) (as : List α) (bs : List β)
    (i : ℕ) (da : α) (db : β) (dc : γ) (h : i < (List.zipWith f as bs).length) :
    (List.zipWith f as bs).getD i dc = f (as.getD i da) (bs.getD i db) := by
  rw [List.length_zipWith] at h
  have ha : i < as.length := lt_of_lt_of_le h (min_le_left _ _)
  have hb : i < bs.length := lt_of_lt_of_le h (min_le_right _ _)
  rw [List.getD_eq_getElem _ _ (by rw [List.length_zipWith]; omega),
    List.getD_eq_getElem _ _ ha, List.getD_eq_getElem _ _ hb]
  exact List.getElem_zipWith

/-! ## Structural lemmas about the poll loop and the averages loop -/

theorem pollLoop_rx_card (c : AcquistionControl) (p : AcquisitionParameter)
    (adc_count : ℕ) (timeout : ℝ) (steps : List PollStep) :
    ((pollLoop c p adc_count timeout steps).1).rx_card = c.rx_card := by
  induction steps with
  | nil => rfl
  | cons s rest ih =>
    simp only [pollLoop]
    split_ifs <;> first | rfl | exact ih

theorem pollLoop_tx_card (c : AcquistionControl) (p : AcquisitionParameter)
    (adc_count : ℕ) (timeout : ℝ) (steps : List PollStep) :
    ((pollLoop c p adc_count timeout steps).1).tx_card = c.tx_card := by
  induction steps with
  | nil => rfl
  | cons s rest ih =>
    simp only [pollLoop]
    split_ifs <;> first | rfl | exact ih

theorem pollLoop_is_setup (c : AcquistionControl) (p : AcquisitionParameter)
    (adc_count : ℕ) (timeout : ℝ) (steps : List PollStep) :
    ((pollLoop c p adc_count timeout steps).1).is_setup = c.is_setup := by
  induction steps with
  | nil => rfl
  | cons s rest ih =>
    simp only [pollLoop]
    split_ifs <;> first | rfl | exact ih

theorem pollLoop_events (c : AcquistionControl) (p : AcquisitionParameter)
    (adc_count : ℕ) (timeout : ℝ) (steps : List PollStep) :
    ∀ e ∈ (pollLoop c p adc_count timeout steps).2.1, ∃ n m, e = Ev.logTimeout n m := by
  induction steps with
  | nil => simp [pollLoop]
  | cons s rest ih =>
    simp only [pollLoop]
    split_ifs <;> simp_all

/-- The event trace of one average iteration: rx start, tx start, some
timeout log events, then tx stop followed by rx stop. -/
def isAvgBlock (evs : List Ev) : Prop :=
  ∃ mid : List Ev, evs = [Ev.startRx, Ev.startTx] ++ mid ++ [Ev.stopTx, Ev.stopRx] ∧
    ∀ e ∈ mid, ∃ n m, e = Ev.logTimeout n m

theorem runAverage_events (c : AcquistionControl) (p : AcquisitionParameter)
    (adc_count : ℕ) (timeout : ℝ) (steps : List PollStep) :
    isAvgBlock (c.runAverage p adc_count timeout steps).2 :=
  ⟨_, rfl, pollLoop_events _ _ _ _ _⟩

theorem runAverage_stopped (c : AcquistionControl) (p : AcquisitionParameter)
    (adc_count : ℕ) (timeout : ℝ) (steps : List PollStep) :
    ((c.runAverage p adc_count timeout steps).1).tx_card.running = false ∧
      ((c.runAverage p adc_count timeout steps).1).rx_card.worker = none := by
  simp only [AcquistionControl.runAverage]
  rw [pollLoop_rx_card]
  simp [RxCard.stop_operation, RxCard.start_operation]

theorem runAverage_is_setup (c : AcquistionControl) (p : AcquisitionParameter)
    (adc_count : ℕ) (timeout : ℝ) (steps : List PollStep) :
    ((c.runAverage p adc_count timeout steps).1).is_setup = c.is_setup := by
  simp only [AcquistionControl.runAverage]
  rw [pollLoop_is_setup]

theorem runAverages_stopped (c : AcquistionControl) (p : AcquisitionParameter)
    (adc_count : ℕ) (timeout : ℝ) (env : List (List PollStep))
    (htx : c.tx_card.running = false) (hrx : c.rx_card.worker = none) :
    ((c.runAverages p adc_count timeout env).1).tx_card.running = false ∧
      ((c.runAverages p adc_count timeout env).1).rx_card.worker = none := by
  induction env generalizing c with
  | nil => exact ⟨htx, hrx⟩
  | cons steps rest ih =>
    simp only [AcquistionControl.runAverages]
    exact ih _ (runAverage_stopped c p adc_count timeout steps).1
      (runAverage_stopped c p adc_count timeout steps).2

theorem runAverages_is_setup (c : AcquistionControl) (p : AcquisitionParameter)
    (adc_count : ℕ) (timeout : ℝ) (env : List (List PollStep)) :
    ((c.runAverages p adc_count timeout env).1).is_setup = c.is_setup := by
  induction env generalizing c with
  | nil => rfl
  | cons steps rest ih =>
    simp only [AcquistionControl.runAverages]
    rw [ih, runAverage_is_setup]

theorem runAverages_events (c : AcquistionControl) (p : AcquisitionParameter)
    (adc_count : ℕ) (timeout : ℝ) (env : List (List PollStep)) :
    ∃ blocks : List (List Ev), (c.runAverages p adc_count timeout env).2 = blocks.flatten ∧
      ∀ b ∈ blocks, isAvgBlock b := by
  induction env generalizing c with
  | nil => exact ⟨[], rfl, by simp⟩
  | cons steps rest ih =>
    obtain ⟨blocks, hb, hall⟩ := ih (c.runAverage p adc_count timeout steps).1
    refine ⟨(c.runAverage p adc_count timeout steps).2 :: blocks, ?_, ?_⟩
    · simp only [AcquistionControl.runAverages, List.flatten]
      rw [← hb]
    · intro b hbmem
      rcases List.mem_cons.mp hbmem with h | h
      · subst h
        exact runAverage_events _ _ _ _ _
      · exact hall b h

/-- The control state a completed (non-raising) `run` returned; a raising
`run` is mapped to an idle default. -/
def okState (r : Except RunError (AcquistionControl × List Ev)) : AcquistionControl :=
  match r with
  | .ok out => out.1
  | .error _ => ⟨false, ⟨false⟩, ⟨0, [], none, false⟩, none, none, none, none⟩

/-- The event trace of a completed (non-raising) `run`. -/
def okEvents (r : Except RunError (AcquistionControl × List Ev)) : List Ev :=
  match r with
  | .ok out => out.2
  | .error _ => []

/-! ## Accumulation across post-processing calls -/

/-- A sequence of accumulator calls: each entry is the gate batch and the
acquisition parameter handed to one `post_processing` call. -/
noncomputable def applyBatches (c : AcquistionControl) :
    List (List (List (List ℝ)) × AcquisitionParameter) → AcquistionControl
  | [] => c
  | b :: rest => applyBatches (c.post_processing b.1 b.2) rest

theorem applyBatches_sig_length (c : AcquistionControl)
    (bs : List (List (List (List ℝ)) × AcquisitionParameter)) :
    (slices (applyBatches c bs).sig).length = (slices c.sig).length + bs.length := by
  induction bs generalizing c with
  | nil => simp [applyBatches]
  | cons b rest ih =>
    simp only [applyBatches, List.length_cons]
    rw [ih, post_processing_sig]
    simp only [List.length_append, List.length_cons, List.length_nil]
    omega

theorem applyBatches_ref_length (c : AcquistionControl)
    (bs : List (List (List (List ℝ)) × AcquisitionParameter)) :
    (slices (applyBatches c bs).ref).length = (slices c.ref).length + bs.length := by
  induction bs generalizing c with
  | nil => simp [applyBatches]
  | cons b rest ih =>
    simp only [applyBatches, List.length_cons]
    rw [ih, post_processing_ref]
    simp only [List.length_append, List.length_cons, List.length_nil]
    omega

theorem applyBatches_raw_length (c : AcquistionControl)
    (bs : List (List (List (List ℝ)) × AcquisitionParameter)) :
    (slices (applyBatches c bs).raw).length = (slices c.raw).length + bs.length := by
  induction bs generalizing c with
  | nil => simp [applyBatches]
  | cons b rest ih =>
    simp only [applyBatches, List.length_cons]
    rw [ih, post_processing_raw]
    simp only [List.length_append, List.length_cons, List.length_nil]
    omega

/-! ## The phase-correction invariant -/

/-- Every average slice of `raw` is the elementwise phase correction of the
corresponding slices of `sig` and `ref`, and the three arrays hold the same
number of average slices. -/
def phaseInv (c : AcquistionControl) : Prop :=
  (slices c.sig).length = (slices c.raw).length ∧
  (slices c.ref).length = (slices c.raw).length ∧
  ∀ a : ℕ, (slices c.raw).getD a [] =
    List.zipWith (fun s r => List.zipWith phase_correct s r)
      ((slices c.sig).getD a []) ((slices c.ref).getD a [])

theorem phaseInv_reset (c : AcquistionControl) (hs : c.sig = none) (hf : c.ref = none)
    (hw : c.raw = none) : phaseInv c := by
  refine ⟨by simp [hs, hw], by simp [hf, hw], fun a => ?_⟩
  simp [hs, hf, hw, slices]

theorem phaseInv_post (c : AcquistionControl) (data : List (List (List ℝ)))
    (p : AcquisitionParameter) (h : phaseInv c) : phaseInv (c.post_processing data p) := by
  obtain ⟨hsl, hfl, hrel⟩ := h
  refine ⟨?_, ?_, fun a => ?_⟩
  · rw [post_processing_sig, post_processing_raw]
    simp [hsl]
  · rw [post_processing_ref, post_processing_raw]
    simp [hfl]
  · rw [post_processing_sig, post_processing_ref, post_processing_raw]
    rcases lt_trichotomy a (slices c.raw).length with hlt | heq | hgt
    · rw [List.getD_append _ _ _ _ hlt, List.getD_append _ _ _ _ (hsl ▸ hlt),
        List.getD_append _ _ _ _ (hfl ▸ hlt)]
      exact hrel a
    · rw [List.getD_append_right _ _ _ _ (le_of_eq heq.symm),
        List.getD_append_right _ _ _ _ (le_of_eq (hsl.trans heq.symm)),
        List.getD_append_right _ _ _ _ (le_of_eq (hfl.trans heq.symm)),
        heq, hsl, hfl]
      simp [AcquistionControl.rawRows]
    · rw [List.getD_append_right _ _ _ _ (le_of_lt hgt),
        List.getD_append_right _ _ _ _ (hsl ▸ le_of_lt hgt),
        List.getD_append_right _ _ _ _ (hfl ▸ le_of_lt hgt),
        hsl, hfl]
      have h1 : 1 ≤ a - (slices c.raw).length := by omega
      rw [List.getD_eq_default _ _ (by simpa), List.getD_eq_default _ _ (by simpa),
        List.getD_eq_default _ _ (by simpa)]
      simp

theorem phaseInv_pollLoop (c : AcquistionControl) (p : AcquisitionParameter)
    (adc_count : ℕ) (timeout : ℝ) (steps : List PollStep) (h : phaseInv c) :
    phaseInv (pollLoop c p adc_count timeout steps).1 := by
  induction steps with
  | nil => exact h
  | cons s rest ih =>
    simp only [pollLoop]
    split_ifs <;> first | exact h | exact ih | exact phaseInv_post _ _ _ h

theorem phaseInv_structural (c : AcquistionControl) (tx : TxCard) (rx : RxCard)
    (h : phaseInv c) : phaseInv { c with tx_card := tx, rx_card := rx } := h

theorem phaseInv_runAverage (c : AcquistionControl) (p : AcquisitionParameter)
    (adc_count : ℕ) (timeout : ℝ) (steps : List PollStep) (h : phaseInv c) :
    phaseInv (c.runAverage p adc_count timeout steps).1 := by
  simp only [AcquistionControl.runAverage]
  exact phaseInv_pollLoop _ _ _ _ _ h

theorem phaseInv_runAverages (c : AcquistionControl) (p : AcquisitionParameter)
    (adc_count : ℕ) (timeout : ℝ) (env : List (List PollStep)) (h : phaseInv c) :
    phaseInv (c.runAverages p adc_count timeout env).1 := by
  induction env generalizing c with
  | nil => exact h
  | cons steps rest ih =>
    simp only [AcquistionControl.runAverages]
    exact ih _ (phaseInv_runAverage _ _ _ _ _ h)

theorem phaseInv_okState_run (c : AcquistionControl) (sequence : List Char)
    (p : AcquisitionParameter) (sqnc : UnrolledSequence) (env : List (List PollStep)) :
    phaseInv (okState (c.run sequence p sqnc env)) := by
  by_cases h1 : c.is_setup = false
  · rw [AcquistionControl.run, if_pos h1]
    exact ⟨rfl, rfl, fun a => rfl⟩
  · by_cases h2 : ¬ (['.', 's', 'e', 'q'].isSuffixOf sequence)
    · rw [AcquistionControl.run, if_neg h1, if_pos h2]
      exact ⟨rfl, rfl, fun a => rfl⟩
    · rw [AcquistionControl.run, if_neg h1, if_neg h2]
      exact phaseInv_runAverages
        { c with raw := none, ref := none, sig := none } p sqnc.adc_count
        (5 + sqnc.duration) env (phaseInv_reset _ rfl rfl rfl)

/-! ## Counting lemmas for the receive streaming loop -/

/-- The number of DMA-wait cycles in a receive-loop event trace. -/
def countWaitDMA (evs : List RxEv) : ℕ :=
  evs.countP fun e => decide (e = RxEv.waitDMA)

theorem countWaitDMA_fifoIter (o : TsObs) : countWaitDMA (fifoIter o) = 1 := by
  by_cases h : 32 ≤ o.availBytes <;> simp [countWaitDMA, fifoIter, h]

theorem countWaitDMA_range (obs : ℕ → TsObs) (N : ℕ) :
    countWaitDMA ((List.range N).flatMap fun i => fifoIter (obs i)) = N := by
  induction N with
  | zero => simp [countWaitDMA]
  | succ n ih =>
    rw [List.range_succ]
    simp only [List.flatMap_append, List.flatMap_cons, List.flatMap_nil, List.append_nil,
      countWaitDMA, List.countP_append]
    rw [← countWaitDMA, ← countWaitDMA, ih, countWaitDMA_fifoIter]

theorem emitGateRecord_not_mem_fifoIter (o : TsObs) :
    RxEv.emitGateRecord ∉ fifoIter o := by
  by_cases h : 32 ≤ o.availBytes <;> simp [fifoIter, h]

theorem emitGateRecord_not_mem_loop (flagAt : ℕ → Bool) (obs : ℕ → TsObs)
    (h : ∃ i, flagAt i = true) :
    RxEv.emitGateRecord ∉ fifo_gated_ts_loop flagAt obs h := by
  rw [fifo_gated_ts_loop]
  intro hmem
  obtain ⟨i, _, hin⟩ := List.mem_flatMap.mp hmem
  exact emitGateRecord_not_mem_fifoIter (obs i) hin

/-! ## Concrete fixtures -/

/-- A concrete gate record: two channels with one sample each. -/
def gateW : List (List ℝ) := [[0], [0]]

/-- Concrete acquisition parameters: decimation 1, one output sample. -/
def paramW : AcquisitionParameter := ⟨0, 1, 1⟩

/-- A concrete idle receive card. -/
def rxW : RxCard := ⟨1, [1, 1], none, false⟩

/-- A concrete receive card with an active worker thread. -/
def rxRunW : RxCard := ⟨1, [1, 1], some (), false⟩

/-- A concrete, fully set up acquisition control with empty result arrays. -/
def ctlW : AcquistionControl := ⟨true, ⟨false⟩, rxW, none, none, none, none⟩

/-- A concrete sequence path ending in `.seq`. -/
def seqW : List Char := ['a', '.', 's', 'e', 'q']

/-- A concrete unrolled sequence: duration 0, one expected gate. -/
def sqncW : UnrolledSequence := ⟨0, 1⟩

/-- A poll tick at which the expected gate has arrived after the sleep. -/
def stepOkW : PollStep := ⟨[], [gateW], 0⟩

/-- A poll tick at which the timeout has expired with only one gate received. -/
def stepTimeoutW : PollStep := ⟨[], [gateW], 10⟩

/-- A concrete timestamp-buffer observation with one pair available. -/
def obsW : TsObs := ⟨32, 0, fun i => (i : ℤ)⟩

/-- A second concrete timestamp-buffer observation. -/
def obsW2 : TsObs := ⟨40, 4, fun i => 2 * (i : ℤ)⟩

/-! ## Claims -/

/-- C4 (amended): whenever the negotiated sample rate differs from the
requested rate `MEGA(sample_rate)`, `RxCard.setup_card` raises a `Warning`
exception — aborting setup — rather than logging and proceeding; when the
rates match no warning is raised; and the dwell-time arithmetic of `run`
always uses the configured requested rate `sample_rate * 1e6` (`f_spcm`),
independent of any negotiated value. -/
theorem claim_C4 (c : RxCard) (negotiated : ℤ) (ctl : AcquistionControl)
    (sequence : List Char) (p : AcquisitionParameter) (sqnc : UnrolledSequence)
    (env : List (List PollStep)) (hsetup : ctl.is_setup = true)
    (hseq : (['.', 's', 'e', 'q'].isSuffixOf sequence) = true) :
    (negotiated ≠ (MEGA c.sample_rate : ℤ) →
      c.setup_card negotiated = .error (.sampleRateWarning negotiated c.sample_rate)) ∧
    (negotiated = (MEGA c.sample_rate : ℤ) → c.setup_card negotiated = .ok c) ∧
    (okState (ctl.run sequence p sqnc env)).dwell =
      some ((p.downsampling_rate : ℝ) / ctl.f_spcm) ∧
    ctl.f_spcm = (ctl.rx_card.sample_rate : ℝ) * 1000000 := by
  refine ⟨fun h => ?_, fun h => ?_, ?_, rfl⟩
  · rw [RxCard.setup_card, if_pos h]
  · rw [RxCard.setup_card, if_neg (by simp [h])]
  · rw [AcquistionControl.run, if_neg (by simp [hsetup]), if_neg (by simp [hseq])]
    rfl

/-- C4 counterexample: with a configured rate of 10 MHz and a negotiated rate
of 9.998 MHz, `setup_card` raises (returns the error modelling the Python
`raise Warning(...)`) instead of logging a non-fatal warning and
proceeding. -/
theorem claim_C4_cex :
    (RxCard.setup_card ⟨10, [], none, false⟩ 9998000 =
      .error (.sampleRateWarning 9998000 10)) ∧
    RxCard.setup_card ⟨10, [], none, false⟩ 9998000 ≠
      .ok ⟨10, [], none, false⟩ := by
  constructor
  · rfl
  · intro h
    simp [RxCard.setup_card, MEGA] at h

/-- C4 witness: the amended claim applied to the concrete fixtures. -/
theorem claim_C4_witness :
    (okState (ctlW.run seqW paramW sqncW [])).dwell =
      some ((paramW.downsampling_rate : ℝ) / ctlW.f_spcm) ∧
    RxCard.setup_card ⟨10, [], none, false⟩ 10000000 = .ok ⟨10, [], none, false⟩ :=
  ⟨(claim_C4 rxW 7 ctlW seqW paramW sqncW [] rfl (by decide)).2.2.1,
   (claim_C4 ⟨10, [], none, false⟩ 10000000 ctlW seqW paramW sqncW [] rfl
     (by decide)).2.1 (by decide)⟩

/-- C5 (amended): in every receive-loop iteration with at least one timestamp
pair (32 bytes) available, the engine reads the two timestamps at the read
position, prints them, and advances the hardware timestamp read cursor by
exactly 32 bytes; it computes no segment boundaries and emits no
GateRecord. -/
theorem claim_C5 (obs : TsObs) (h : 32 ≤ obs.availBytes) :
    fifoIter obs =
      [RxEv.waitDMA,
       RxEv.printTimestamps (obs.buf (obs.pos + 16)) (obs.buf obs.pos),
       RxEv.advanceTsCursor 32] ∧
    RxEv.emitGateRecord ∉ fifoIter obs :=
  ⟨by simp [fifoIter, h], emitGateRecord_not_mem_fifoIter obs⟩

/-- C5 counterexample: a concrete iteration with a full timestamp pair
available consumes the pair (cursor advanced by 32) yet emits no GateRecord,
contradicting the claim that a GateRecord is emitted for the bytes
spanned. -/
theorem claim_C5_cex :
    RxEv.advanceTsCursor 32 ∈ fifoIter obsW ∧
    RxEv.emitGateRecord ∉ fifoIter obsW := by
  decide

/-- C5 witness: the amended claim applied to a concrete observation. -/
theorem claim_C5_witness :
    fifoIter obsW2 =
      [RxEv.waitDMA, RxEv.printTimestamps (obsW2.buf 20) (obsW2.buf 4),
       RxEv.advanceTsCursor 32] :=
  (claim_C5 obsW2 (by decide)).1

/-- C8: `RxCard.stop_operation` on an active worker first sets the
cancellation flag, then joins the worker thread, and only then issues the
hardware stop command draining both the sample and the timestamp DMA
channels; once the flag is observed set (at the top of iteration `k`), the
streaming loop performs at most `k` DMA-wait cycles in total — at most one
after the flag was raised — and the loop never emits a GateRecord. -/
theorem claim_C8 :
    (∀ (c : RxCard) (w : Unit), c.worker = some w →
      c.stop_operation =
        ({ c with emergency_stop := true, worker := none },
         [RxEv.setEmergencyFlag, RxEv.joinWorker, RxEv.stopCommand true true])) ∧
    (∀ (flagAt : ℕ → Bool) (obs : ℕ → TsObs) (h : ∃ i, flagAt i = true) (k : ℕ),
      flagAt k = true →
      countWaitDMA (fifo_gated_ts_loop flagAt obs h) ≤ k ∧
      RxEv.emitGateRecord ∉ fifo_gated_ts_loop flagAt obs h) := by
  constructor
  · intro c w hw
    simp [RxCard.stop_operation, hw]
  · intro flagAt obs h k hk
    refine ⟨?_, emitGateRecord_not_mem_loop flagAt obs h⟩
    rw [fifo_gated_ts_loop, countWaitDMA_range]
    exact Nat.find_le hk

/-- C8 witness: the claim applied to a concrete card and a concrete flag
stream that is first observed set at the top of iteration 1. -/
theorem claim_C8_witness :
    rxRunW.stop_operation =
      ({ rxRunW with emergency_stop := true, worker := none },
       [RxEv.setEmergencyFlag, RxEv.joinWorker, RxEv.stopCommand true true]) ∧
    countWaitDMA
      (fifo_gated_ts_loop (fun i => decide (1 ≤ i)) (fun _ => ⟨0, 0, fun _ => 0⟩)
        ⟨1, by decide⟩) ≤ 1 :=
  ⟨claim_C8.1 rxRunW () rfl,
   (claim_C8.2 (fun i => decide (1 ≤ i)) (fun _ => ⟨0, 0, fun _ => 0⟩)
     ⟨1, by decide⟩ 1 (by decide)).1⟩

/-- C10: calling `RxCard.stop_operation` with no active worker is a safe
no-op — it raises nothing, issues no hardware stop command and leaves the
card state unchanged — and `stop_operation` is idempotent: a second call
immediately after a successful stop takes only this no-op branch. -/
theorem claim_C10 :
    (∀ c : RxCard, c.worker = none →
      c.stop_operation = (c, [RxEv.printNoActive]) ∧
      ∀ s t : Bool, RxEv.stopCommand s t ∉ (c.stop_operation).2) ∧
    (∀ (c : RxCard) (w : Unit), c.worker = some w →
      ((c.stop_operation).1).stop_operation =
        ((c.stop_operation).1, [RxEv.printNoActive])) := by
  constructor
  · intro c hc
    refine ⟨?_, fun s t => ?_⟩
    · simp [RxCard.stop_operation, hc]
    · simp [RxCard.stop_operation, hc]
  · intro c w hw
    simp [RxCard.stop_operation, hw]

/-- C10 witness: the claim applied to a concrete idle card and to a concrete
stop-stop call pair on an active card. -/
theorem claim_C10_witness :
    rxW.stop_operation = (rxW, [RxEv.printNoActive]) ∧
    ((rxRunW.stop_operation).1).stop_operation =
      ((rxRunW.stop_operation).1, [RxEv.printNoActive]) :=
  ⟨(claim_C10.1 rxW rfl).1, claim_C10.2 rxRunW () rfl⟩

/-- C6 (amended): when an iteration's post-sleep check sees at least
`adc_count` accumulated records, polling stops and all accumulated records
are post-processed; but when the record count already satisfies the
condition at a `while`-guard check — in particular at loop entry — the loop
exits immediately without invoking `post_processing` at all. -/
theorem claim_C6 (c : AcquistionControl) (p : AcquisitionParameter) (adc_count : ℕ)
    (timeout : ℝ) (step : PollStep) (rest : List PollStep) :
    (adc_count ≤ step.atGuard.length →
      pollLoop c p adc_count timeout (step :: rest) = (c, [], .guardExit)) ∧
    (step.atGuard.length < adc_count → adc_count ≤ step.afterSleep.length →
      pollLoop c p adc_count timeout (step :: rest) =
        (c.post_processing step.afterSleep p, [], .processedAll)) := by
  constructor
  · intro h
    rw [pollLoop, if_neg (by omega)]
  · intro h1 h2
    rw [pollLoop, if_pos h1, if_pos h2]

/-- C6 counterexample: with `adc_count = 2` and two gate records already
accumulated when polling begins, the loop exits at the guard with the
control state unchanged — no record is processed and no average slice is
appended (the result array still holds no slice), contradicting the claim
that the accumulated records are processed in this case. -/
theorem claim_C6_cex :
    pollLoop ctlW paramW 2 5 [⟨[gateW, gateW], [gateW, gateW], 0⟩] =
      (ctlW, [], .guardExit) ∧
    slices ctlW.sig = [] := by
  constructor
  · rw [pollLoop, if_neg (by decide)]
  · rfl

/-- C6 witness: the amended claim applied at loop entry with `adc_count = 0`
and at a post-sleep check that sees the expected single record. -/
theorem claim_C6_witness :
    pollLoop ctlW paramW 0 5 [stepOkW] = (ctlW, [], .guardExit) ∧
    pollLoop ctlW paramW 1 5 [stepOkW] =
      (ctlW.post_processing [gateW] paramW, [], .processedAll) :=
  ⟨(claim_C6 ctlW paramW 0 5 stepOkW []).1 (by decide),
   (claim_C6 ctlW paramW 1 5 stepOkW []).2 (by decide) (by decide)⟩

/-- C7 (amended): for every gate whose decimated (digitally downconverted)
output is at least `adc_samples` long, the truncated signal and reference
rows have length exactly `adc_samples`, with the truncation window starting
at index `floor(outputLength/2 - adc_samples/2)`; a gate whose decimated
output is shorter than `adc_samples` instead yields a silently shorter row
(the slice is clipped), not an error. -/
theorem claim_C7 (c : AcquistionControl) (p : AcquisitionParameter)
    (data : List (List (List ℝ)))
    (hall : ∀ gate ∈ data, ∀ ch : ℕ, ch < 2 →
      p.adc_samples ≤
        (apply_ddc ((gate.getD ch []).map fun v => v * c.rx_card.rx_scaling.getD ch 0)
          (2 * p.downsampling_rate) p.larmor_frequency c.f_spcm).length) :
    (∀ row ∈ c.sigRows data p, row.length = p.adc_samples) ∧
    (∀ row ∈ c.refRows data p, row.length = p.adc_samples) ∧
    (∀ n adc : ℕ, adc ≤ n → ro_start n adc = ⌊(n : ℚ) / 2 - (adc : ℚ) / 2⌋) ∧
    (∀ (x : List ℂ) (adc : ℕ), adc ≤ x.length →
      adc_truncate x adc = (x.drop ((x.length - adc) / 2)).take adc) := by
  refine ⟨?_, ?_, fun n adc h => ro_start_eq_floor h,
    fun x adc h => adc_truncate_eq_of_le h⟩
  · intro row hrow
    obtain ⟨gate, hg, hrow⟩ := List.mem_map.mp hrow
    rw [← hrow, AcquistionControl.gateRow]
    exact adc_truncate_length_of_le (hall gate hg 0 (by norm_num))
  · intro row hrow
    obtain ⟨gate, hg, hrow⟩ := List.mem_map.mp hrow
    rw [← hrow, AcquistionControl.gateRow]
    exact adc_truncate_length_of_le (hall gate hg 1 (by norm_num))

/-- Concrete parameters requesting 5 output samples at decimation 1. -/
def param7 : AcquisitionParameter := ⟨0, 1, 5⟩

/-- A concrete gate with 3 samples per channel, so its decimated output
(3 samples) is shorter than the 5 requested output samples. -/
def gate7 : List (List ℝ) := [[0, 0, 0], [0, 0, 0]]

/-- C7 counterexample: a gate whose decimated output has 3 samples while
`adc_samples = 5` produces a silently clipped row of length 1 — and
`post_processing` still appends the average slice normally — instead of
surfacing an insufficient-samples error condition. -/
theorem adc_truncate_length_short {α : Type} {x : List α} (h3 : x.length = 3) :
    (adc_truncate x 5).length = 1 := by
  rw [adc_truncate, npSlice]
  simp only [h3, List.length_take, List.length_drop]
  norm_num [ro_start]

theorem claim_C7_cex :
    ((ctlW.sigRows [gate7] param7).getD 0 []).length = 1 ∧
    (slices (ctlW.post_processing [gate7] param7).sig).length = 1 ∧
    param7.adc_samples = 5 := by
  have hX : (apply_ddc ((gate7.getD 0 []).map fun v => v * ctlW.rx_card.rx_scaling.getD 0 0)
      (2 * param7.downsampling_rate) param7.larmor_frequency ctlW.f_spcm).length = 3 := by
    rw [apply_ddc_length]
    simp [gate7, param7]
  refine ⟨?_, ?_, rfl⟩
  · simp only [AcquistionControl.sigRows, List.map_cons, List.map_nil, List.getD_cons_zero]
    rw [AcquistionControl.gateRow]
    exact adc_truncate_length_short hX
  · rw [post_processing_sig]
    rfl

/-- C7 witness: the amended claim applied to a concrete batch whose single
gate decimates to exactly the requested number of output samples. -/
theorem claim_C7_witness :
    (∀ row ∈ ctlW.sigRows [gateW] paramW, row.length = paramW.adc_samples) ∧
    ro_start 3 5 = ro_start 3 5 ∧
    adc_truncate ([0, 1, 2] : List ℂ) 1 = [1] := by
  have h := claim_C7 ctlW paramW [gateW] ?_
  · refine ⟨h.1, rfl, ?_⟩
    rw [h.2.2.2 [0, 1, 2] 1 (by norm_num)]
    norm_num
  · intro gate hg ch hch
    rw [apply_ddc_length]
    have hgw : gate = gateW := by simpa using hg
    subst hgw
    rcases ch with _ | _ | ch
    · simp [gateW, paramW]
    · simp [gateW, paramW]
    · omega

/-- C1: in an average iteration whose poll loop hits the timeout (elapsed
time beyond the 5 s + duration budget) with fewer than `adc_count` records
accumulated, the loop stops with a timed-out exit, logs the
partial-acquisition message carrying the observed and expected counts, and
processes exactly the accumulated records: with `0 < n` the three result
arrays each gain one average slice of exactly `n` phase-encode rows, and
with `n = 0` the state is unchanged (no slice appended); moreover `run`
completes by returning, not by raising. -/
theorem claim_C1 (c : AcquistionControl) (p : AcquisitionParameter) (adc_count : ℕ)
    (timeout : ℝ) (step : PollStep) (rest : List PollStep) (sequence : List Char)
    (sqnc : UnrolledSequence) (env : List (List PollStep))
    (hg : step.atGuard.length < adc_count)
    (hn : step.afterSleep.length < adc_count)
    (ht : timeout < step.elapsed)
    (hsetup : c.is_setup = true)
    (hseq : (['.', 's', 'e', 'q'].isSuffixOf sequence) = true) :
    (pollLoop c p adc_count timeout (step :: rest)).2.2 =
      LoopExit.timedOut step.afterSleep.length ∧
    (pollLoop c p adc_count timeout (step :: rest)).2.1 =
      [Ev.logTimeout step.afterSleep.length adc_count] ∧
    (0 < step.afterSleep.length →
      slices ((pollLoop c p adc_count timeout (step :: rest)).1).sig =
        slices c.sig ++ [c.sigRows step.afterSleep p] ∧
      (c.sigRows step.afterSleep p).length = step.afterSleep.length ∧
      slices ((pollLoop c p adc_count timeout (step :: rest)).1).ref =
        slices c.ref ++ [c.refRows step.afterSleep p] ∧
      (c.refRows step.afterSleep p).length = step.afterSleep.length ∧
      slices ((pollLoop c p adc_count timeout (step :: rest)).1).raw =
        slices c.raw ++ [c.rawRows step.afterSleep p] ∧
      (c.rawRows step.afterSleep p).length = step.afterSleep.length) ∧
    (step.afterSleep.length = 0 →
      (pollLoop c p adc_count timeout (step :: rest)).1 = c) ∧
    (∃ out, c.run sequence p sqnc env = .ok out) := by
  rw [pollLoop, if_pos hg, if_neg (by omega), if_pos ht]
  refine ⟨rfl, rfl, fun hpos => ?_, fun hzero => ?_, ?_⟩
  · rw [if_pos hpos]
    exact ⟨post_processing_sig c _ p, sigRows_length c _ p,
      post_processing_ref c _ p, refRows_length c _ p,
      post_processing_raw c _ p, rawRows_length c _ p⟩
  · rw [if_neg (by omega)]
  · rw [AcquistionControl.run, if_neg (by simp [hsetup]), if_neg (by simp [hseq])]
    exact ⟨_, rfl⟩

/-- C1 witness: the claim applied to a concrete iteration that times out
with 1 of 2 expected records accumulated. -/
theorem claim_C1_witness :
    (pollLoop ctlW paramW 2 5 [stepTimeoutW]).2.2 = LoopExit.timedOut 1 ∧
    (pollLoop ctlW paramW 2 5 [stepTimeoutW]).2.1 = [Ev.logTimeout 1 2] ∧
    (ctlW.sigRows [gateW] paramW).length = 1 := by
  have h := claim_C1 ctlW paramW 2 5 stepTimeoutW [] seqW sqncW []
    (by decide) (by decide) (by show (5 : ℝ) < 10; norm_num) rfl (by decide)
  exact ⟨h.1, h.2.1, (h.2.2.1 (by decide)).2.1⟩

/-- C3: on every path on which `run` returns, both the transmit and the
receive engine have been stopped (the transmit card is not running and the
receive worker is gone), and the event trace decomposes into one block per
average of the shape start-rx, start-tx, poll events, stop-tx, stop-rx —
the transmit engine stopped before the receive engine in each iteration. -/
theorem claim_C3 (c : AcquistionControl) (sequence : List Char)
    (p : AcquisitionParameter) (sqnc : UnrolledSequence) (env : List (List PollStep))
    (htx : c.tx_card.running = false) (hrx : c.rx_card.worker = none) :
    (okState (c.run sequence p sqnc env)).tx_card.running = false ∧
    (okState (c.run sequence p sqnc env)).rx_card.worker = none ∧
    ∃ blocks : List (List Ev), okEvents (c.run sequence p sqnc env) = blocks.flatten ∧
      ∀ b ∈ blocks, isAvgBlock b := by
  by_cases h1 : c.is_setup = false
  · rw [AcquistionControl.run, if_pos h1]
    exact ⟨rfl, rfl, [], rfl, by simp⟩
  · by_cases h2 : ¬ (['.', 's', 'e', 'q'].isSuffixOf sequence)
    · rw [AcquistionControl.run, if_neg h1, if_pos h2]
      exact ⟨rfl, rfl, [], rfl, by simp⟩
    · rw [AcquistionControl.run, if_neg h1, if_neg h2]
      have hstop := runAverages_stopped { c with raw := none, ref := none, sig := none }
        p sqnc.adc_count (5 + sqnc.duration) env htx hrx
      exact ⟨hstop.1, hstop.2,
        runAverages_events { c with raw := none, ref := none, sig := none }
          p sqnc.adc_count (5 + sqnc.duration) env⟩

/-- C3 witness: the claim applied to a concrete run with one average. -/
theorem claim_C3_witness :
    (okState (ctlW.run seqW paramW sqncW [[stepOkW]])).tx_card.running = false ∧
    (okState (ctlW.run seqW paramW sqncW [[stepOkW]])).rx_card.worker = none :=
  ⟨(claim_C3 ctlW seqW paramW sqncW [[stepOkW]] rfl rfl).1,
   (claim_C3 ctlW seqW paramW sqncW [[stepOkW]] rfl rfl).2.1⟩

/-! ## Evaluating a one-average run on a processing tick -/

theorem gateRow_rx_invariant (c c' : AcquistionControl)
    (hs : c.rx_card.rx_scaling = c'.rx_card.rx_scaling)
    (hr : c.rx_card.sample_rate = c'.rx_card.sample_rate)
    (p : AcquisitionParameter) (ch : ℕ) (gate : List (List ℝ)) :
    c.gateRow p ch gate = c'.gateRow p ch gate := by
  simp [AcquistionControl.gateRow, AcquistionControl.f_spcm, hs, hr]

theorem sigRows_rx_invariant (c c' : AcquistionControl)
    (hs : c.rx_card.rx_scaling = c'.rx_card.rx_scaling)
    (hr : c.rx_card.sample_rate = c'.rx_card.sample_rate)
    (data : List (List (List ℝ))) (p : AcquisitionParameter) :
    c.sigRows data p = c'.sigRows data p := by
  simp only [AcquistionControl.sigRows]
  exact List.map_congr_left fun gate _ => gateRow_rx_invariant c c' hs hr p 0 gate

theorem refRows_rx_invariant (c c' : AcquistionControl)
    (hs : c.rx_card.rx_scaling = c'.rx_card.rx_scaling)
    (hr : c.rx_card.sample_rate = c'.rx_card.sample_rate)
    (data : List (List (List ℝ))) (p : AcquisitionParameter) :
    c.refRows data p = c'.refRows data p := by
  simp only [AcquistionControl.refRows]
  exact List.map_congr_left fun gate _ => gateRow_rx_invariant c c' hs hr p 1 gate

theorem rawRows_rx_invariant (c c' : AcquistionControl)
    (hs : c.rx_card.rx_scaling = c'.rx_card.rx_scaling)
    (hr : c.rx_card.sample_rate = c'.rx_card.sample_rate)
    (data : List (List (List ℝ))) (p : AcquisitionParameter) :
    c.rawRows data p = c'.rawRows data p := by
  rw [AcquistionControl.rawRows, AcquistionControl.rawRows,
    sigRows_rx_invariant c c' hs hr, refRows_rx_invariant c c' hs hr]

theorem run_single_processed_slices (c : AcquistionControl) (sequence : List Char)
    (p : AcquisitionParameter) (sqnc : UnrolledSequence) (step : PollStep)
    (hsetup : c.is_setup = true)
    (hseq : (['.', 's', 'e', 'q'].isSuffixOf sequence) = true)
    (hg : step.atGuard.length < sqnc.adc_count)
    (hp : sqnc.adc_count ≤ step.afterSleep.length) :
    slices (okState (c.run sequence p sqnc [[step]])).sig =
      [c.sigRows step.afterSleep p] ∧
    slices (okState (c.run sequence p sqnc [[step]])).ref =
      [c.refRows step.afterSleep p] ∧
    slices (okState (c.run sequence p sqnc [[step]])).raw =
      [c.rawRows step.afterSleep p] := by
  rw [AcquistionControl.run, if_neg (by simp [hsetup]), if_neg (by simp [hseq])]
  simp only [okState, AcquistionControl.runAverages, AcquistionControl.runAverage]
  rw [pollLoop, if_pos hg, if_pos hp]
  refine ⟨?_, ?_, ?_⟩
  · rw [post_processing_sig]
    rw [sigRows_rx_invariant _ c rfl rfl]
    rfl
  · rw [post_processing_ref]
    rw [refRows_rx_invariant _ c rfl rfl]
    rfl
  · rw [post_processing_raw]
    rw [rawRows_rx_invariant _ c rfl rfl]
    rfl

theorem okState_run_is_setup (c : AcquistionControl) (sequence : List Char)
    (p : AcquisitionParameter) (sqnc : UnrolledSequence) (env : List (List PollStep))
    (hsetup : c.is_setup = true)
    (hseq : (['.', 's', 'e', 'q'].isSuffixOf sequence) = true) :
    (okState (c.run sequence p sqnc env)).is_setup = true := by
  rw [AcquistionControl.run, if_neg (by simp [hsetup]), if_neg (by simp [hseq])]
  simp only [okState]
  rw [runAverages_is_setup]
  exact hsetup

/-- C2 (amended): within a single `run`, accumulation is monotonic — every
`post_processing` call appends exactly one average slice to each of the
three result arrays and leaves all earlier slices unchanged, and after `n`
accumulator calls starting from empty arrays the average-axis length of each
array is exactly `n`; however `run` resets all three arrays to `None` at its
start, so the arrays do not persist across multiple `run` calls on the same
instance (a `run` with no processed average leaves them empty regardless of
what was accumulated before). -/
theorem claim_C2 :
    (∀ (c : AcquistionControl) (data : List (List (List ℝ))) (p : AcquisitionParameter),
      slices (c.post_processing data p).sig = slices c.sig ++ [c.sigRows data p] ∧
      slices (c.post_processing data p).ref = slices c.ref ++ [c.refRows data p] ∧
      slices (c.post_processing data p).raw = slices c.raw ++ [c.rawRows data p]) ∧
    (∀ (c : AcquistionControl)
        (bs : List (List (List (List ℝ)) × AcquisitionParameter)),
      c.sig = none → c.ref = none → c.raw = none →
      (slices (applyBatches c bs).sig).length = bs.length ∧
      (slices (applyBatches c bs).ref).length = bs.length ∧
      (slices (applyBatches c bs).raw).length = bs.length) ∧
    (∀ (c : AcquistionControl) (sequence : List Char) (p : AcquisitionParameter)
        (sqnc : UnrolledSequence),
      c.is_setup = true → (['.', 's', 'e', 'q'].isSuffixOf sequence) = true →
      (okState (c.run sequence p sqnc [])).sig = none ∧
      (okState (c.run sequence p sqnc [])).ref = none ∧
      (okState (c.run sequence p sqnc [])).raw = none) := by
  refine ⟨fun c data p =>
      ⟨post_processing_sig c data p, post_processing_ref c data p,
        post_processing_raw c data p⟩,
    fun c bs h1 h2 h3 => ?_, fun c sequence p sqnc hsetup hseq => ?_⟩
  · refine ⟨?_, ?_, ?_⟩
    · rw [applyBatches_sig_length]
      simp [h1, slices]
    · rw [applyBatches_ref_length]
      simp [h2, slices]
    · rw [applyBatches_raw_length]
      simp [h3, slices]
  · rw [AcquistionControl.run, if_neg (by simp [hsetup]), if_neg (by simp [hseq])]
    simp [okState, AcquistionControl.runAverages]

/-- The control state after a first one-average `run` on the fixture. -/
noncomputable def run1W : AcquistionControl :=
  okState (ctlW.run seqW paramW sqncW [[stepOkW]])

/-- The control state after a second, identical `run` on the same
instance. -/
noncomputable def run2W : AcquistionControl :=
  okState (run1W.run seqW paramW sqncW [[stepOkW]])

/-- C2 counterexample: two consecutive one-average `run` calls on the same
instance each leave exactly one average slice — the slice accumulated by the
first `run` is discarded by the second `run`'s reset, so after two
accumulator calls across the two runs the average axis holds 1 slice, not 2,
contradicting monotonic growth across `run` calls. -/
theorem claim_C2_cex :
    (slices run1W.sig).length = 1 ∧
    (slices run2W.sig).length = 1 ∧
    (1 : ℕ) ≠ 2 := by
  have h1 := (run_single_processed_slices ctlW seqW paramW sqncW stepOkW rfl
    (by decide) (by decide) (by decide)).1
  have hs2 : run1W.is_setup = true :=
    okState_run_is_setup ctlW seqW paramW sqncW [[stepOkW]] rfl (by decide)
  have h2 := (run_single_processed_slices run1W seqW paramW sqncW stepOkW hs2
    (by decide) (by decide) (by decide)).1
  refine ⟨?_, ?_, by norm_num⟩
  · rw [run1W, h1]
    rfl
  · rw [run2W, h2]
    rfl

/-- C2 witness: the amended claim applied to a concrete two-batch
accumulation within one run and to a concrete zero-average run. -/
theorem claim_C2_witness :
    (slices (applyBatches ctlW [([gateW], paramW), ([gateW], paramW)]).sig).length = 2 ∧
    (okState (ctlW.run seqW paramW sqncW [])).sig = none :=
  ⟨(claim_C2.2.1 ctlW [([gateW], paramW), ([gateW], paramW)] rfl rfl rfl).1,
   (claim_C2.2.2 ctlW seqW paramW sqncW rfl (by decide)).1⟩

/-- C9: for every average slice produced by a `run`, the `raw` array is the
`signal` array multiplied elementwise by `exp(-i*angle(reference))`:
`raw[avg][gate][sample] = sig[avg][gate][sample] *
exp(-i*arg(ref[avg][gate][sample]))` at every in-range index. -/
theorem claim_C9 (c : AcquistionControl) (sequence : List Char)
    (p : AcquisitionParameter) (sqnc : UnrolledSequence) (env : List (List PollStep))
    (a g s : ℕ)
    (hs : s <
      (((slices (okState (c.run sequence p sqnc env)).raw).getD a []).getD g []).length) :
    (((slices (okState (c.run sequence p sqnc env)).raw).getD a []).getD g []).getD s 0 =
      ((((slices (okState (c.run sequence p sqnc env)).sig).getD a []).getD g []).getD s 0) *
        Complex.exp (-Complex.I *
          (((((slices (okState (c.run sequence p sqnc env)).ref).getD a []).getD g []).getD s 0).arg
            : ℂ)) := by
  obtain ⟨h1, h2, hrel⟩ := phaseInv_okState_run c sequence p sqnc env
  rw [hrel a] at hs ⊢
  by_cases hgl : g < (List.zipWith (fun s r => List.zipWith phase_correct s r)
      ((slices (okState (c.run sequence p sqnc env)).sig).getD a [])
      ((slices (okState (c.run sequence p sqnc env)).ref).getD a [])).length
  · rw [getD_zipWith _ _ _ g [] [] [] hgl] at hs ⊢
    rw [getD_zipWith phase_correct _ _ s 0 0 0 hs]
    rfl
  · rw [List.getD_eq_default _ _ (le_of_not_lt hgl)] at hs
    simp at hs

theorem gateRowW_length (ch : ℕ) (hch : ch < 2) :
    (ctlW.gateRow paramW ch gateW).length = 1 := by
  rw [AcquistionControl.gateRow]
  apply adc_truncate_length_of_le
  rw [apply_ddc_length]
  rcases ch with _ | _ | ch
  · simp [gateW, paramW]
  · simp [gateW, paramW]
  · omega

theorem rawRowsW_row_length :
    ((ctlW.rawRows [gateW] paramW).getD 0 []).length = 1 := by
  rw [AcquistionControl.rawRows,
    getD_zipWith _ _ _ 0 [] [] []
      (by rw [List.length_zipWith, sigRows_length, refRows_length]; norm_num),
    List.length_zipWith]
  simp only [AcquistionControl.sigRows, AcquistionControl.refRows, List.map_cons,
    List.map_nil, List.getD_cons_zero]
  rw [gateRowW_length 0 (by norm_num), gateRowW_length 1 (by norm_num)]
  norm_num

/-- C9 witness: the claim applied at index (0,0,0) of a concrete one-average
run. -/
theorem claim_C9_witness :
    (((slices (okState (ctlW.run seqW paramW sqncW [[stepOkW]])).raw).getD 0 []).getD 0 []).getD 0 0 =
      ((((slices (okState (ctlW.run seqW paramW sqncW [[stepOkW]])).sig).getD 0 []).getD 0 []).getD 0 0) *
        Complex.exp (-Complex.I *
          (((((slices (okState (ctlW.run seqW paramW sqncW [[stepOkW]])).ref).getD 0 []).getD 0 []).getD 0 0).arg
            : ℂ)) := by
  apply claim_C9
  rw [(run_single_processed_slices ctlW seqW paramW sqncW stepOkW rfl
    (by decide) (by decide) (by decide)).2.2]
  simp only [List.getD_cons_zero]
  show 0 < ((ctlW.rawRows [gateW] paramW).getD 0 []).length
  rw [rawRowsW_row_length]
  norm_num

end NexusConsole
